import Mathlib

/-!
Shallow embedding of the linter-config resolution and custom-instruction
assembly modules of the repository (files
`src/core/prompts/gen-eslint-rules.ts`, `src/core/prompts/sections/custom-instructions.ts`
and the sub-process based lint-rule module).

JavaScript strings are modelled as Lean `String`; `String.prototype.trim`
is modelled by `jsTrim` below (drop leading and trailing whitespace).
Filesystem state's and process outcomes are explicit parameters, so each
source function becomes a pure Lean function of that state.
-/

/-- Model of `path.join(a, b)` for a relative second segment that contains
no separators: it concatenates with a single "/". -/
def pjoin (a b : String) : String := a ++ "/" ++ b

/-- Model of `path.basename`: the part of the path after the final "/". -/
def basename (p : String) : String :=
  ⟨(p.data.reverse.takeWhile (fun c => c ≠ '/')).reverse⟩

/-- Model of JavaScript `String.prototype.trim()`: remove leading and
trailing whitespace characters. -/
def jsTrim (s : String) : String :=
  ⟨(((s.data.dropWhile Char.isWhitespace).reverse.dropWhile Char.isWhitespace).reverse)⟩

/-- Model of JavaScript `Array.prototype.join(sep)`. -/
def joinSep (sep : String) : List String → String
  | [] => ""
  | [x] => x
  | x :: y :: xs => x ++ sep ++ joinSep sep (y :: xs)

instance {ε α : Type} [DecidableEq ε] [DecidableEq α] : DecidableEq (Except ε α) := fun a b =>
  match a, b with
  | .ok x, .ok y => if h : x = y then .isTrue (by rw [h]) else .isFalse (by simp [h])
  | .error x, .error y => if h : x = y then .isTrue (by rw [h]) else .isFalse (by simp [h])
  | .ok _, .error _ => .isFalse (by simp)
  | .error _, .ok _ => .isFalse (by simp)

/-! ## Linter configuration resolution, in-process variant
(`src/core/prompts/gen-eslint-rules.ts`) -/

namespace GenEslint

/-- A severity value: `string | number` in the source type. -/
inductive Severity where
  | str (s : String)
  | num (n : Int)
deriving DecidableEq

/-- `type ESLintRuleConfig = string | number | [string | number, ...any[]]`.
The arbitrary option payload of the tuple form is modelled as a list of
strings; no claim inspects option payloads. -/
inductive ESLintRuleConfig where
  | plain (v : Severity)
  | withOptions (v : Severity) (opts : List String)
deriving DecidableEq

/-- A JavaScript rules object: a finite mapping from rule id to config. -/
abbrev RuleMap := List (String × ESLintRuleConfig)

/-- The part of a parsed `Linter.Config` the module inspects: its `rules`
field. `none` models an absent, `null` or otherwise falsy `rules` value;
`some` models a truthy rules object (a JS object is truthy even if empty). -/
structure LinterConfig where
  rules : Option RuleMap
deriving DecidableEq

/-- State of a config-file path on disk, as far as `parseESLintConfig`
observes it:
  * `absent`       - `fs.existsSync` is false;
  * `unparseable`  - the file exists but `JSON.parse` (or the `package.json`
                     read) throws, which the source catches, yielding null;
  * `jsonObj r ec` - the file exists and parses; `r` is its `rules` field
                     and `ec` its `eslintConfig` field (used only when the
                     file is a `package.json`; `none` models an absent or
                     falsy section, matching `packageJson.eslintConfig || null`). -/
inductive ESLintFile where
  | absent
  | unparseable
  | jsonObj (rules : Option RuleMap) (eslintConfig : Option LinterConfig)

/-- The fixed candidate file names of `getESLintConfigPaths`. -/
def eslintConfigFilenames : List String :=
  [".eslintrc", ".eslintrc.js", ".eslintrc.json", ".eslintrc.yaml", ".eslintrc.yml", "package.json"]

/-- `getESLintConfigPaths`: join every candidate name to the workspace root. -/
def getESLintConfigPaths (workspacePath : String) : List String :=
  eslintConfigFilenames.map (pjoin workspacePath)

/-- `getESLintConfigFromPackageJson`: the `eslintConfig` section of a parsed
`package.json`, or null when parsing fails or the section is falsy. -/
def getESLintConfigFromPackageJson (f : ESLintFile) : Option LinterConfig :=
  match f with
  | .jsonObj _ ec => ec
  | _ => none

/-- `parseESLintConfig`: null when the file is absent; the `eslintConfig`
section for a `package.json`; otherwise the JSON-parsed file. Every parse
failure is caught and yields null. -/
def parseESLintConfig (files : String → ESLintFile) (configPath : String) : Option LinterConfig :=
  match files configPath with
  | .absent => none
  | .unparseable => none
  | .jsonObj r ec =>
      if basename configPath = "package.json" then ec else some ⟨r⟩

/-- The visible state of one resolution call: the first workspace folder
(if any), the outcome of `eslint.calculateConfigForFile("dummy.ts")`
(`.error` models a thrown exception), and the filesystem. -/
structure WorkspaceState where
  workspacePath : Option String
  calcConfig : Except String LinterConfig
  files : String → ESLintFile

/-- `getFullESLintConfig`: the engine-computed config, with any thrown
error caught and converted to null. -/
def getFullESLintConfig (st : WorkspaceState) : Option LinterConfig :=
  match st.calcConfig with
  | .ok c => some c
  | .error _ => none

/-- The truthiness test `config?.rules` applied to one candidate path. -/
def ruleEntry (files : String → ESLintFile) (configPath : String) : Option RuleMap :=
  (parseESLintConfig files configPath).bind LinterConfig.rules

/-- The fallback loop of `getWorkspaceESLintRules`: return the `rules` of
the first candidate whose parse yields a truthy `rules` field. -/
def findConfigRules (files : String → ESLintFile) : List String → Option RuleMap
  | [] => none
  | p :: ps =>
      match ruleEntry files p with
      | some r => some r
      | none => findConfigRules files ps

/-- `getWorkspaceESLintRules`: probe the engine-computed configuration
first; if its `rules` field is truthy return it, otherwise scan the
candidate config files in order; null when everything is exhausted. -/
def getWorkspaceESLintRules (st : WorkspaceState) : Option RuleMap :=
  match st.workspacePath with
  | none => none
  | some w =>
      match (getFullESLintConfig st).bind LinterConfig.rules with
      | some r => some r
      | none => findConfigRules st.files (getESLintConfigPaths w)

end GenEslint

/-! ## Linter configuration resolution, sub-process variant
(the unnamed source file invoking `npx eslint --print-config`) -/

namespace EslintRunner

/-- Outcome of the spawned child process: either it closed with an exit
code after producing `stdout`, or spawning itself raised an error. -/
inductive ProcOutcome where
  | exited (code : Int) (stdout : String)
  | spawnError (msg : String)

/-- `runCommand`: resolve with the captured stdout when the exit code is
0 or 1, reject with the template message for any other exit code, and
reject on a spawn error. Rejection values are modelled as strings. -/
def runCommand (o : ProcOutcome) : Except String String :=
  match o with
  | .exited code out =>
      if code = 0 ∨ code = 1 then .ok out
      else .error ("child process exited with code " ++ toString code)
  | .spawnError msg => .error msg

/-- `getFullESLintConfig` of the sub-process variant: run
`npx eslint --print-config`, then `JSON.parse` the stdout (`parseJson`
models the parser, `none` a thrown parse error); every rejection or parse
error is caught and yields null. -/
def getFullESLintConfig (o : ProcOutcome)
    (parseJson : String → Option GenEslint.LinterConfig) : Option GenEslint.LinterConfig :=
  match runCommand o with
  | .error _ => none
  | .ok out => parseJson out

end EslintRunner

/-! ## Custom instruction assembly
(`src/core/prompts/sections/custom-instructions.ts`) -/

/-- State of a path as observed by `safeReadFile`:
  * `absent`      - `fileExistsAtPath` is false;
  * `file e`      - a regular file; `e` is the outcome of `fs.readFile`
                    (`.error code` models a rejection carrying that error
                    code, e.g. "ENOENT", "EISDIR", "EACCES");
  * `dir entries` - a directory; `entries` are the regular files the
                    recursive `fs.readdir` enumeration yields, each paired
                    with the outcome of reading it. -/
inductive FSNode where
  | absent
  | file (read : Except String String)
  | dir (entries : List (String × Except String String))

/-- A filesystem: every path maps to a node state. -/
abbrev FileSys := String → FSNode

/-- The `Promise.all` over the reads of a directory listing: all contents
in order, or `none` as soon as any single read rejects. -/
def readDirEntries : List (String × Except String String) → Option (List (String × String))
  | [] => some []
  | (n, .ok c) :: rest => (readDirEntries rest).map (fun l => (n, c) :: l)
  | (_, .error _) :: _ => none

/-- The label block of one file inside a rules directory:
`` `${ruleFilePathRelative}:\n${fileContent}` `` with the content trimmed. -/
def dirEntryBlock (filePath : String) (e : String × String) : String :=
  pjoin filePath e.1 ++ ":\n" ++ jsTrim e.2

/-- The wrapper label of a rules directory in `safeReadFile`
(`path.posix.join(cwd)` on an already normalized path is the identity). -/
def ruleDirHeader (file cwd : String) : String :=
  "# " ++ file ++ "/\n\nThe following is provided by a root-level " ++ file ++
    "/ directory where the user has specified instructions for this working directory (" ++
    cwd ++ ")\n\n"

/-- The label of a single rule file in `safeReadFile`. -/
def ruleFileHeader (file cwd : String) : String :=
  "# " ++ file ++ "\n\nThe following is provided by a root-level " ++ file ++
    " file where the user has specified instructions for this working directory (" ++
    cwd ++ ")\n\n"

/-- `safeReadFile`: read one conventional rule source under `cwd`.
An absent path contributes "".  A directory is enumerated recursively,
each file content is trimmed and labeled with its resolved path and the
blocks are wrapped under a directory label; any error during that
enumeration is caught (logged) and the directory contributes "".  A
regular file is read and trimmed; if non-empty it is wrapped under a file
label.  A read rejection with code ENOENT or EISDIR yields ""; any other
rejection is rethrown. -/
def safeReadFile (fs : FileSys) (file cwd : String) : Except String String :=
  let filePath := pjoin cwd file
  match fs filePath with
  | .absent => .ok ""
  | .dir entries =>
      match readDirEntries entries with
      | none => .ok ""
      | some pairs =>
          .ok (ruleDirHeader file cwd ++ joinSep "\n\n" (pairs.map (dirEntryBlock filePath)))
  | .file (.ok content) =>
      let t := jsTrim content
      if t ≠ "" then .ok (ruleFileHeader file cwd ++ t) else .ok ""
  | .file (.error code) =>
      if code = "ENOENT" ∨ code = "EISDIR" then .ok "" else .error code

/-- The fixed generic rule-file names scanned by `loadRuleFiles`. -/
def ruleFilesList : List String := [".clinerules", ".cursorrules", ".windsurfrules"]

/-- The accumulation loop of `loadRuleFiles`:
`` combinedRules += `\n${content}\n` `` for every non-empty contribution. -/
def loadRuleFilesAux (fs : FileSys) (cwd : String) : List String → String → Except String String
  | [], acc => .ok acc
  | f :: rest, acc =>
      match safeReadFile fs f cwd with
      | .error e => .error e
      | .ok content =>
          if content ≠ "" then loadRuleFilesAux fs cwd rest (acc ++ "\n" ++ content ++ "\n")
          else loadRuleFilesAux fs cwd rest acc

/-- `loadRuleFiles`: concatenate the contributions of the three generic
rule sources in their fixed order. -/
def loadRuleFiles (fs : FileSys) (cwd : String) : Except String String :=
  loadRuleFilesAux fs cwd ruleFilesList ""

/-- The optional settings of `addCustomInstructions`.  `none` models an
absent field; the source tests both fields for truthiness only. -/
structure CIOptions where
  language : Option String := none
  rooIgnoreInstructions : Option String := none

/-- `LANGUAGES[code] || code`: resolve a language code through the static
lookup table (modelled as a parameter, the table lives outside this
excerpt), falling back to the raw code when the entry is missing or falsy. -/
def resolveLanguageName (table : String → Option String) (code : String) : String :=
  match table code with
  | some n => if n = "" then code else n
  | none => code

/-- The fixed banner prefixed to a non-empty instruction document (the
template literal opens with a newline). -/
def customInstructionsBanner : String :=
  "\n====\n\nUSER\x27S CUSTOM INSTRUCTIONS\n\nThe following additional instructions are provided by the user, and should be followed to the best of your ability without interfering with the TOOL USE guidelines.\n\n"

/-- `addCustomInstructions`: assemble the instruction document.  The mode
rule file is read first (when `mode` is truthy); sections are pushed in
the fixed order language preference, global instructions, mode-specific
instructions, rules; the rules block concatenates the labeled mode rule
content, the raw ignore-instruction string and the trimmed generic
aggregate of `loadRuleFiles`; a non-empty joined document is prefixed
with the fixed banner, otherwise the result is "". -/
def addCustomInstructions (fs : FileSys) (table : String → Option String)
    (modeCustomInstructions globalCustomInstructions cwd mode : String)
    (options : CIOptions) : Except String String :=
  match (if mode ≠ "" then safeReadFile fs (".clinerules-" ++ mode) cwd else Except.ok "") with
  | .error e => .error e
  | .ok modeRuleContent =>
    let sections1 : List String :=
      match options.language with
      | some lang =>
          ["Language Preference:\nYou should always speak and think in the \"" ++
            resolveLanguageName table lang ++ "\" (" ++ lang ++
            ") language unless the user gives you instructions below to do otherwise."]
      | none => []
    let sections2 :=
      if jsTrim globalCustomInstructions ≠ "" then
        sections1 ++ ["Global Instructions:\n" ++ jsTrim globalCustomInstructions]
      else sections1
    let sections3 :=
      if jsTrim modeCustomInstructions ≠ "" then
        sections2 ++ ["Mode-specific Instructions:\n" ++ jsTrim modeCustomInstructions]
      else sections2
    let rules1 : List String :=
      if modeRuleContent ≠ "" ∧ jsTrim modeRuleContent ≠ "" then
        ["# Rules from .clinerules-" ++ mode ++ ":\n" ++ modeRuleContent]
      else []
    let rules2 :=
      match options.rooIgnoreInstructions with
      | some s => if s ≠ "" then rules1 ++ [s] else rules1
      | none => rules1
    match loadRuleFiles fs cwd with
    | .error e => .error e
    | .ok genericRuleContent =>
      let rules3 :=
        if genericRuleContent ≠ "" ∧ jsTrim genericRuleContent ≠ "" then
          rules2 ++ [jsTrim genericRuleContent]
        else rules2
      let sections4 :=
        if rules3 ≠ [] then sections3 ++ ["Rules:\n\n" ++ joinSep "\n\n" rules3]
        else sections3
      let joinedSections := joinSep "\n\n" sections4
      .ok (if joinedSections ≠ "" then customInstructionsBanner ++ joinedSections else "")

/-- The everywhere-absent filesystem: no rule file exists. -/
def absentFS : FileSys := fun _ => .absent

/-! ## Concrete states used by witnesses and counterexamples -/

/-- A workspace whose computed-configuration probe succeeds with a
non-empty rule mapping while a conventional config file holds a different
mapping. -/
def c1State : GenEslint.WorkspaceState :=
  { workspacePath := some "/w"
    calcConfig := .ok ⟨some [("semi", .plain (.num 2))]⟩
    files := fun p =>
      if p = "/w/.eslintrc" then .jsonObj (some [("quotes", .plain (.str "error"))]) none
      else .absent }

/-- A workspace whose probe fails, whose first conventional config file
parses with an empty rule mapping, and whose second holds a non-empty one. -/
def c2State : GenEslint.WorkspaceState :=
  { workspacePath := some "/w"
    calcConfig := .error "engine failed"
    files := fun p =>
      if p = "/w/.eslintrc" then .jsonObj (some []) none
      else if p = "/w/.eslintrc.js" then .jsonObj (some [("semi", .plain (.num 2))]) none
      else .absent }

/-- A workspace whose probe fails, whose first conventional config file is
absent and whose second holds a non-empty rule mapping. -/
def c2wState : GenEslint.WorkspaceState :=
  { workspacePath := some "/w"
    calcConfig := .error "engine failed"
    files := fun p =>
      if p = "/w/.eslintrc.js" then .jsonObj (some [("semi", .plain (.num 2))]) none
      else .absent }

/-- A workspace whose probe throws and whose filesystem holds no config
file at all. -/
def c3State : GenEslint.WorkspaceState :=
  { workspacePath := some "/w"
    calcConfig := .error "engine failed"
    files := fun _ => .absent }

/-- A filesystem whose only rule sources are a mode rule file and a
generic `.cursorrules` file. -/
def c7FS (cwd mode cm cg : String) : FileSys := fun p =>
  if p = pjoin cwd (".clinerules-" ++ mode) then .file (.ok cm)
  else if p = pjoin cwd ".cursorrules" then .file (.ok cg)
  else .absent

/-- The outcome of reading one enumerated rules-directory entry.  The
regular files beneath the directory are given by path relative to the
directory (e.g. "a.md", or "sub/c.md" for a file inside a subdirectory),
paired with content.  The source reads
`path.resolve(filePath, dirent.name)`, and under the recursive
enumeration `dirent.name` is the entry's basename, so the read succeeds
exactly when some file of the tree has that basename as its full
relative path (a direct child); otherwise a file system read of the
resolved path rejects with ENOENT. -/
def readResolved (tree : List (String × String)) (rel : String) : Except String String :=
  match tree.lookup (basename rel) with
  | some c => Except.ok c
  | none => Except.error "ENOENT"

/-- The `FSNode` a rules directory presents to `safeReadFile`: the
recursive `fs.readdir` enumeration yields one Dirent per regular file
beneath the directory, carrying its basename as `name`, and each entry
is read at the path resolved from that basename. -/
def dirNode (tree : List (String × String)) : FSNode :=
  .dir (tree.map (fun e => (basename e.1, readResolved tree e.1)))

/-- A filesystem whose `.clinerules` is a directory with the given
regular files beneath it, and no other rule source. -/
def c8fsOf (cwd : String) (tree : List (String × String)) : FileSys := fun p =>
  if p = pjoin cwd ".clinerules" then dirNode tree else .absent

/-- A filesystem whose `.clinerules` is a directory containing a file
whose read rejects with a permission error. -/
def c9FS : FileSys := fun p =>
  if p = "/w/.clinerules" then .dir [("a.md", .error "EACCES")] else .absent

/-- A filesystem whose `.cursorrules` is a regular file whose read
rejects with a permission error. -/
def c9wFS : FileSys := fun p =>
  if p = "/w/.cursorrules" then .file (.error "EACCES") else .absent

/-- A filesystem whose only rule source is a `.cursorrules` regular file
with the given content. -/
def c10FS (cwd s : String) : FileSys := fun p =>
  if p = pjoin cwd ".cursorrules" then .file (.ok s) else .absent

/-! ## Shared helper lemmas -/

theorem strDataAppend (a b : String) : (a ++ b).data = a.data ++ b.data := by
  cases a; cases b; rfl

theorem strExt {a b : String} (h : a.data = b.data) : a = b := by
  cases a; cases b; exact congrArg String.mk h

theorem strNeEmpty {a : String} (h : a.data ≠ []) : a ≠ "" := by
  intro he
  subst he
  exact h rfl

theorem findConfigRules_append_of_none (files : String → GenEslint.ESLintFile)
    (pre l : List String) (h : ∀ q ∈ pre, GenEslint.ruleEntry files q = none) :
    GenEslint.findConfigRules files (pre ++ l) = GenEslint.findConfigRules files l := by
  induction pre with
  | nil => rfl
  | cons p ps ih =>
      have hp : GenEslint.ruleEntry files p = none := h p (List.mem_cons_self p ps)
      show (match GenEslint.ruleEntry files p with
            | some r => some r
            | none => GenEslint.findConfigRules files (ps ++ l)) =
          GenEslint.findConfigRules files l
      rw [hp]
      exact ih fun q hq => h q (List.mem_cons_of_mem _ hq)

theorem findConfigRules_eq_none_iff (files : String → GenEslint.ESLintFile) (l : List String) :
    GenEslint.findConfigRules files l = none ↔ ∀ p ∈ l, GenEslint.ruleEntry files p = none := by
  induction l with
  | nil => simp [GenEslint.findConfigRules]
  | cons p ps ih =>
      simp only [GenEslint.findConfigRules]
      cases h : GenEslint.ruleEntry files p with
      | some r => simp [h]
      | none => simpa [h] using ih

theorem str_append_left_ne_empty (p x : String) (hp : p ≠ "") : p ++ x ≠ "" := by
  intro h
  have hd := congrArg String.data h
  rw [strDataAppend] at hd
  exact hp (strExt (List.append_eq_nil.mp hd).1)

theorem pjoin_right_inj {c a b : String} : pjoin c a = pjoin c b ↔ a = b := by
  constructor
  · intro h
    have hd := congrArg String.data h
    simp only [pjoin, strDataAppend] at hd
    exact strExt (List.append_cancel_left hd)
  · intro h
    rw [h]

theorem clinerules_ne_modefile (mode : String) :
    (".clinerules" : String) ≠ ".clinerules-" ++ mode := by
  intro h
  have hl := congrArg (fun s => s.data.length) h
  simp only [strDataAppend, List.length_append] at hl
  rw [show (".clinerules" : String).data.length = 11 from rfl,
    show (".clinerules-" : String).data.length = 12 from rfl] at hl
  omega

theorem cursorrules_ne_modefile (mode : String) :
    (".cursorrules" : String) ≠ ".clinerules-" ++ mode := by
  intro h
  have hd := congrArg String.data h
  simp only [strDataAppend] at hd
  simp at hd

theorem windsurfrules_ne_modefile (mode : String) :
    (".windsurfrules" : String) ≠ ".clinerules-" ++ mode := by
  intro h
  have hd := congrArg String.data h
  simp only [strDataAppend] at hd
  simp at hd

theorem dropWhile_eq_self_of_head {a : Char} (t : List Char) (h : a.isWhitespace = false) :
    (a :: t).dropWhile Char.isWhitespace = a :: t := by
  simp [List.dropWhile_cons, h]

theorem head_not_ws_of_dropWhile_fix {a : Char} {t : List Char}
    (h : (a :: t).dropWhile Char.isWhitespace = a :: t) : a.isWhitespace = false := by
  by_contra hw
  rw [Bool.not_eq_false] at hw
  rw [List.dropWhile_cons, if_pos hw] at h
  have hl := congrArg List.length h
  have hle := (t.dropWhile_suffix Char.isWhitespace).length_le
  simp at hl
  omega

theorem jsTrim_fix_dropWhile {x : String} (h : jsTrim x = x) :
    x.data.dropWhile Char.isWhitespace = x.data ∧
    x.data.reverse.dropWhile Char.isWhitespace = x.data.reverse := by
  have hd : (((x.data.dropWhile Char.isWhitespace).reverse.dropWhile
      Char.isWhitespace).reverse) = x.data := congrArg String.data h
  have l1 : (x.data.dropWhile Char.isWhitespace).length ≤ x.data.length :=
    (x.data.dropWhile_suffix _).length_le
  have l2 : ((x.data.dropWhile Char.isWhitespace).reverse.dropWhile Char.isWhitespace).length ≤
      (x.data.dropWhile Char.isWhitespace).length := by
    simpa using ((x.data.dropWhile Char.isWhitespace).reverse.dropWhile_suffix
      Char.isWhitespace).length_le
  have l3 := congrArg List.length hd
  simp only [List.length_reverse] at l3
  have e1 : x.data.dropWhile Char.isWhitespace = x.data :=
    (x.data.dropWhile_suffix Char.isWhitespace).eq_of_length (by omega)
  refine ⟨e1, ?_⟩
  rw [e1] at hd
  have := congrArg List.reverse hd
  rwa [List.reverse_reverse] at this

theorem jsTrim_eq_self {x : String}
    (h1 : x.data.dropWhile Char.isWhitespace = x.data)
    (h2 : x.data.reverse.dropWhile Char.isWhitespace = x.data.reverse) : jsTrim x = x := by
  apply strExt
  show (((x.data.dropWhile Char.isWhitespace).reverse.dropWhile Char.isWhitespace).reverse) = x.data
  rw [h1, h2, List.reverse_reverse]

/-! ## Claim theorems, linter-config resolution -/

/-- C1: when the computed-configuration probe succeeds and yields a
non-empty rule mapping, `getWorkspaceESLintRules` returns that mapping
verbatim; the conventional config files (the `files` component, which is
universally quantified here) are never consulted and never override it. -/
theorem claim_C1_probe_precedence (st : GenEslint.WorkspaceState) (w : String)
    (cfg : GenEslint.LinterConfig) (r : GenEslint.RuleMap)
    (hw : st.workspacePath = some w) (hcalc : st.calcConfig = .ok cfg)
    (hr : cfg.rules = some r) (hne : r ≠ []) :
    GenEslint.getWorkspaceESLintRules st = some r := by
  unfold GenEslint.getWorkspaceESLintRules GenEslint.getFullESLintConfig
  rw [hw, hcalc]
  simp [hr]

/-- C1 witness: a concrete workspace where the probe yields `semi` rules
while `.eslintrc` on disk holds different rules; the probe result wins. -/
theorem claim_C1_probe_precedence_witness :
    GenEslint.getWorkspaceESLintRules c1State =
      some [("semi", GenEslint.ESLintRuleConfig.plain (.num 2))] :=
  claim_C1_probe_precedence c1State "/w" ⟨some [("semi", .plain (.num 2))]⟩
    [("semi", .plain (.num 2))] rfl rfl rfl (by decide)

/-- C2 counterexample: the probe fails, `.eslintrc` exists and parses with
an EMPTY rule mapping, `.eslintrc.js` holds a non-empty one; the code
returns the empty mapping of the earlier file, so a file with an empty
rule mapping does win over a later candidate, contrary to the claim. -/
theorem claim_C2_counterexample :
    GenEslint.getFullESLintConfig c2State = none ∧
    GenEslint.ruleEntry c2State.files "/w/.eslintrc" = some [] ∧
    GenEslint.ruleEntry c2State.files "/w/.eslintrc.js" =
      some [("semi", GenEslint.ESLintRuleConfig.plain (.num 2))] ∧
    GenEslint.getWorkspaceESLintRules c2State = some [] ∧
    GenEslint.getWorkspaceESLintRules c2State ≠
      some [("semi", GenEslint.ESLintRuleConfig.plain (.num 2))] := by
  decide

/-- C2 (amended): when the probe fails or yields no rules, the fallback
scan returns the rule mapping of the first candidate file that exists,
parses, and has a truthy `rules` entry - even an empty mapping counts; a
file that is absent, unparseable, or lacks a `rules` entry never wins over
a later candidate. -/
theorem claim_C2_first_match (st : GenEslint.WorkspaceState) (w p : String)
    (pre post : List String) (r : GenEslint.RuleMap)
    (hw : st.workspacePath = some w)
    (hprobe : (GenEslint.getFullESLintConfig st).bind GenEslint.LinterConfig.rules = none)
    (hsplit : GenEslint.getESLintConfigPaths w = pre ++ p :: post)
    (hpre : ∀ q ∈ pre, GenEslint.ruleEntry st.files q = none)
    (hp : GenEslint.ruleEntry st.files p = some r) :
    GenEslint.getWorkspaceESLintRules st = some r := by
  unfold GenEslint.getWorkspaceESLintRules
  rw [hw]
  show (match (GenEslint.getFullESLintConfig st).bind GenEslint.LinterConfig.rules with
        | some r => some r
        | none => GenEslint.findConfigRules st.files (GenEslint.getESLintConfigPaths w)) = some r
  rw [hprobe]
  show GenEslint.findConfigRules st.files (GenEslint.getESLintConfigPaths w) = some r
  rw [hsplit, findConfigRules_append_of_none st.files pre (p :: post) hpre]
  show (match GenEslint.ruleEntry st.files p with
        | some r => some r
        | none => GenEslint.findConfigRules st.files post) = some r
  rw [hp]

/-- C2 witness: probe fails, `.eslintrc` is absent, `.eslintrc.js` parses
with a non-empty mapping, which is returned. -/
theorem claim_C2_first_match_witness :
    GenEslint.getWorkspaceESLintRules c2wState =
      some [("semi", GenEslint.ESLintRuleConfig.plain (.num 2))] :=
  claim_C2_first_match c2wState "/w" "/w/.eslintrc.js" ["/w/.eslintrc"]
    ["/w/.eslintrc.json", "/w/.eslintrc.yaml", "/w/.eslintrc.yml", "/w/package.json"]
    [("semi", .plain (.num 2))] rfl rfl rfl (by decide) (by decide)

/-- C3: for every filesystem and engine state (including thrown engine
errors and unparseable files - both are caught, the result type carries no
exception), `getWorkspaceESLintRules` returns null exactly when the probe
yields no rules and no candidate config file yields a truthy `rules`
entry. -/
theorem claim_C3_null_iff_exhausted (st : GenEslint.WorkspaceState) (w : String)
    (hw : st.workspacePath = some w) :
    GenEslint.getWorkspaceESLintRules st = none ↔
      ((GenEslint.getFullESLintConfig st).bind GenEslint.LinterConfig.rules = none ∧
        ∀ p ∈ GenEslint.getESLintConfigPaths w, GenEslint.ruleEntry st.files p = none) := by
  unfold GenEslint.getWorkspaceESLintRules
  rw [hw]
  cases h : (GenEslint.getFullESLintConfig st).bind GenEslint.LinterConfig.rules with
  | some r => simp [h]
  | none => simp [h, findConfigRules_eq_none_iff]

/-- C3 witness: a workspace where the engine throws and no config file
exists resolves to null. -/
theorem claim_C3_null_iff_exhausted_witness :
    GenEslint.getWorkspaceESLintRules c3State = none :=
  (claim_C3_null_iff_exhausted c3State "/w" rfl).mpr ⟨rfl, by decide⟩

/-- C4: in the sub-process variant, exit codes 0 and 1 resolve with the
captured stdout; any other exit code rejects with the template message,
and a spawn error rejects with the spawn error; in both failure cases the
surrounding `getFullESLintConfig` catches the rejection and returns null
instead of propagating it. -/
theorem claim_C4_exit_codes (code : Int) (out msg : String)
    (parseJson : String → Option GenEslint.LinterConfig) :
    ((code = 0 ∨ code = 1) → EslintRunner.runCommand (.exited code out) = .ok out) ∧
    (¬(code = 0 ∨ code = 1) →
      EslintRunner.runCommand (.exited code out) =
        .error ("child process exited with code " ++ toString code) ∧
      EslintRunner.getFullESLintConfig (.exited code out) parseJson = none) ∧
    EslintRunner.runCommand (.spawnError msg) = .error msg ∧
    EslintRunner.getFullESLintConfig (.spawnError msg) parseJson = none := by
  refine ⟨fun h => ?_, fun h => ?_, rfl, rfl⟩
  · simp [EslintRunner.runCommand, h]
  · refine ⟨?_, ?_⟩
    · simp [EslintRunner.runCommand, h]
    · simp [EslintRunner.getFullESLintConfig, EslintRunner.runCommand, h]

/-- C4 witness: exit code 2 rejects and is converted to null, exit code 1
resolves with the stdout. -/
theorem claim_C4_exit_codes_witness :
    EslintRunner.runCommand (.exited 2 "out") =
      .error ("child process exited with code " ++ toString (2 : Int)) ∧
    EslintRunner.getFullESLintConfig (.exited 2 "out") (fun _ => none) = none ∧
    EslintRunner.runCommand (.exited 1 "out") = .ok "out" := by
  have h2 := claim_C4_exit_codes 2 "out" "m" (fun _ => none)
  have h1 := claim_C4_exit_codes 1 "out" "m" (fun _ => none)
  exact ⟨(h2.2.1 (by decide)).1, (h2.2.1 (by decide)).2, h1.1 (by decide)⟩

/-! ## Claim theorems, custom-instruction assembly -/

theorem ruleFileHeader_append_ne_empty (f cwd x : String) : ruleFileHeader f cwd ++ x ≠ "" := by
  unfold ruleFileHeader
  apply str_append_left_ne_empty
  apply str_append_left_ne_empty
  apply str_append_left_ne_empty
  apply str_append_left_ne_empty
  apply str_append_left_ne_empty
  apply str_append_left_ne_empty
  apply str_append_left_ne_empty
  decide

theorem ruleDirHeader_append_ne_empty (f cwd x : String) : ruleDirHeader f cwd ++ x ≠ "" := by
  unfold ruleDirHeader
  apply str_append_left_ne_empty
  apply str_append_left_ne_empty
  apply str_append_left_ne_empty
  apply str_append_left_ne_empty
  apply str_append_left_ne_empty
  apply str_append_left_ne_empty
  apply str_append_left_ne_empty
  decide

theorem readDirEntries_eq_none {entries : List (String × Except String String)}
    {n ec : String} (h : (n, Except.error ec) ∈ entries) : readDirEntries entries = none := by
  induction entries with
  | nil => cases h
  | cons e rest ih =>
      obtain ⟨n', r⟩ := e
      cases r with
      | ok c =>
          have hm : (n, Except.error ec) ∈ rest := by
            rcases List.mem_cons.mp h with h1 | h1
            · exact absurd (congrArg Prod.snd h1) (by simp)
            · exact h1
          show (readDirEntries rest).map (fun l => (n', c) :: l) = none
          rw [ih hm]
          rfl
      | error e => rfl

/-- C5: with no language option, whitespace-only global and mode
instructions, no rule files on disk and no ignore instructions, the
assembled document is exactly the empty string. -/
theorem claim_C5_all_empty (g m cwd mode : String) (table : String → Option String)
    (hg : jsTrim g = "") (hm : jsTrim m = "") :
    addCustomInstructions absentFS table m g cwd mode {} = .ok "" := by
  unfold addCustomInstructions
  have hmr : (if mode ≠ "" then safeReadFile absentFS (".clinerules-" ++ mode) cwd
      else Except.ok "") = Except.ok "" := by
    split
    · rfl
    · rfl
  rw [hmr]
  have hlr : loadRuleFiles absentFS cwd = .ok "" := rfl
  simp [hlr, hg, hm, joinSep]

/-- C5 witness: whitespace-only instruction strings and an empty disk
produce the empty document. -/
theorem claim_C5_all_empty_witness :
    addCustomInstructions absentFS (fun _ => none) " \t" "  " "/p" "code" {} = .ok "" :=
  claim_C5_all_empty "  " " \t" "/p" "code" (fun _ => none) (by decide) (by decide)

/-- C6: with only a language option "fr", the document consists of the
fixed banner (a "====" delimiter line then the literal USER\x27S CUSTOM
INSTRUCTIONS header) followed by the single language-preference section,
whose display name is resolved through the LANGUAGES table with fallback
to the raw code. -/
theorem claim_C6_language_only (cwd mode : String) (table : String → Option String) :
    addCustomInstructions absentFS table "" "" cwd mode ⟨some "fr", none⟩ =
      .ok (customInstructionsBanner ++
        ("Language Preference:\nYou should always speak and think in the \"" ++
          resolveLanguageName table "fr" ++ "\" (" ++ "fr" ++
          ") language unless the user gives you instructions below to do otherwise.")) ∧
    (table "fr" = none → resolveLanguageName table "fr" = "fr") := by
  constructor
  · unfold addCustomInstructions
    have hmr : (if mode ≠ "" then safeReadFile absentFS (".clinerules-" ++ mode) cwd
        else Except.ok "") = Except.ok "" := by
      split
      · rfl
      · rfl
    rw [hmr]
    have hlr : loadRuleFiles absentFS cwd = .ok "" := rfl
    have hL : ("Language Preference:\nYou should always speak and think in the \"" ++
        resolveLanguageName table "fr" ++ "\" (" ++ "fr" ++
        ") language unless the user gives you instructions below to do otherwise.") ≠ "" := by
      apply str_append_left_ne_empty
      apply str_append_left_ne_empty
      apply str_append_left_ne_empty
      apply str_append_left_ne_empty
      decide
    simp [hlr, joinSep, hL]
  · intro h
    simp [resolveLanguageName, h]

/-- C6 witness: with an "fr" entry absent from the table, the banner plus
the language-preference line naming the raw code is produced. -/
theorem claim_C6_language_only_witness :
    addCustomInstructions absentFS (fun _ => none) "" "" "/p" "code" ⟨some "fr", none⟩ =
      .ok (customInstructionsBanner ++
        ("Language Preference:\nYou should always speak and think in the \"" ++
          resolveLanguageName (fun _ => none) "fr" ++ "\" (" ++ "fr" ++
          ") language unless the user gives you instructions below to do otherwise.")) ∧
    resolveLanguageName (fun _ => none) "fr" = "fr" :=
  ⟨(claim_C6_language_only "/p" "code" (fun _ => none)).1,
    (claim_C6_language_only "/p" "code" (fun _ => none)).2 rfl⟩

theorem lookup_of_mem_nodup {tree : List (String × String)}
    (hnd : (tree.map Prod.fst).Nodup) {e : String × String} (he : e ∈ tree) :
    tree.lookup e.1 = some e.2 := by
  induction tree with
  | nil => cases he
  | cons x rest ih =>
      obtain ⟨k, v⟩ := x
      rw [List.map_cons, List.nodup_cons] at hnd
      rcases List.mem_cons.mp he with h1 | h1
      · subst h1
        simp [List.lookup]
      · have hx : (e.1 == k) = false := by
          simp only [beq_eq_false_iff_ne, ne_eq]
          intro hq
          have hm : e.1 ∈ rest.map Prod.fst := List.mem_map_of_mem Prod.fst h1
          rw [hq] at hm
          exact hnd.1 hm
        simp only [List.lookup, hx]
        exact ih hnd.2 h1

theorem readDirEntries_map_ok (l : List (String × String)) :
    readDirEntries (l.map (fun e => (e.1, Except.ok e.2))) = some l := by
  induction l with
  | nil => rfl
  | cons x rest ih =>
      show (readDirEntries (rest.map (fun e => (e.1, Except.ok e.2)))).map
        (fun t => (x.1, x.2) :: t) = some (x :: rest)
      rw [ih]
      rfl

/-- C8 counterexample: `.clinerules` is a directory whose only regular
file lies in a subdirectory (`sub/c.md` with content "C").  The
recursive enumeration yields the Dirent basename `c.md`, the code
resolves and reads `.clinerules/c.md`, which does not exist, the
rejection lands in the inner catch, and the whole directory contributes
nothing - the output holds no block labeled with the file's resolved
absolute path, contrary to the claim. -/
theorem claim_C8_counterexample :
    basename "sub/c.md" = "c.md" ∧
    readResolved [("sub/c.md", "C")] "sub/c.md" = .error "ENOENT" ∧
    loadRuleFiles (c8fsOf "/p" [("sub/c.md", "C")]) "/p" = .ok "" ∧
    loadRuleFiles (c8fsOf "/p" [("sub/c.md", "C")]) "/p" ≠
      .ok ("\n" ++ ruleDirHeader ".clinerules" "/p" ++
        "/p/.clinerules/sub/c.md:\nC" ++ "\n") := by
  decide

/-- C8 (amended): when every regular file beneath the `.clinerules`
directory is a direct child (so each Dirent basename IS its relative
path) with distinct names, `loadRuleFiles` enumerates them all, labels
each file's content block with its resolved path under the directory,
joins the blocks with a blank line, and wraps the aggregate in one
labeled block naming the directory; for files nested in subdirectories
the resolved-path labeling fails and the directory contributes nothing
(see the counterexample). -/
theorem claim_C8_flat_directory (cwd : String) (tree : List (String × String))
    (hflat : ∀ e ∈ tree, basename e.1 = e.1)
    (hnd : (tree.map Prod.fst).Nodup) :
    loadRuleFiles (c8fsOf cwd tree) cwd =
      .ok ("\n" ++ (ruleDirHeader ".clinerules" cwd ++
        joinSep "\n\n" (tree.map (fun e =>
          pjoin (pjoin cwd ".clinerules") e.1 ++ ":\n" ++ jsTrim e.2))) ++ "\n") := by
  have hne1 : ¬ (pjoin cwd ".cursorrules" = pjoin cwd ".clinerules") := by
    rw [pjoin_right_inj]
    decide
  have hne2 : ¬ (pjoin cwd ".windsurfrules" = pjoin cwd ".clinerules") := by
    rw [pjoin_right_inj]
    decide
  have hmap : tree.map (fun e => (basename e.1, readResolved tree e.1)) =
      tree.map (fun e => (e.1, Except.ok e.2)) := by
    apply List.map_congr_left
    intro e he
    simp [readResolved, hflat e he, lookup_of_mem_nodup hnd he]
  have hdir : safeReadFile (c8fsOf cwd tree) ".clinerules" cwd =
      .ok (ruleDirHeader ".clinerules" cwd ++
        joinSep "\n\n" (tree.map (fun e =>
          pjoin (pjoin cwd ".clinerules") e.1 ++ ":\n" ++ jsTrim e.2))) := by
    have hscrut : c8fsOf cwd tree (pjoin cwd ".clinerules") = dirNode tree := by
      simp [c8fsOf]
    simp only [safeReadFile, hscrut, dirNode, hmap, readDirEntries_map_ok]
    rfl
  have hcur : safeReadFile (c8fsOf cwd tree) ".cursorrules" cwd = .ok "" := by
    simp [safeReadFile, c8fsOf, hne1]
  have hwin : safeReadFile (c8fsOf cwd tree) ".windsurfrules" cwd = .ok "" := by
    simp [safeReadFile, c8fsOf, hne2]
  simp only [loadRuleFiles, ruleFilesList, loadRuleFilesAux, hdir, hcur, hwin]
  have hE : ¬ (("" : String) ≠ "") := fun h => h rfl
  rw [if_pos (ruleDirHeader_append_ne_empty ".clinerules" cwd _), if_neg hE, if_neg hE]
  rfl

/-- C8 witness: the two-flat-file instance `a.md` ("A"), `b.md` ("B")
yields the single directory-level labeled block with both contents,
each labeled with its resolved path and joined by a blank line. -/
theorem claim_C8_flat_directory_witness :
    loadRuleFiles (c8fsOf "/p" [("a.md", "A"), ("b.md", "B")]) "/p" =
      .ok ("\n" ++ (ruleDirHeader ".clinerules" "/p" ++
        (pjoin (pjoin "/p" ".clinerules") "a.md" ++ ":\n" ++ jsTrim "A" ++ "\n\n" ++
          (pjoin (pjoin "/p" ".clinerules") "b.md" ++ ":\n" ++ jsTrim "B"))) ++ "\n") := by
  have h := claim_C8_flat_directory "/p" [("a.md", "A"), ("b.md", "B")]
    (by decide) (by decide)
  simpa [joinSep] using h

/-- C9 counterexample: `.clinerules` is a directory holding a file whose
read rejects with the permission error EACCES, yet `loadRuleFiles`
returns successfully with no contribution - the permission error does not
propagate, contradicting the claim that every non-ENOENT/EISDIR error is
fatal. -/
theorem claim_C9_counterexample : loadRuleFiles c9FS "/w" = .ok "" := by decide

/-- C9 (amended): a rejection with code ENOENT or EISDIR while reading a
top-level rule-file path is swallowed and the source contributes the
empty string, and a rejection with any other code on a top-level file
read propagates to the caller; however an error of ANY kind raised while
reading the files inside a rules directory is swallowed by the inner
catch and the directory contributes nothing. -/
theorem claim_C9_error_policy (fs : FileSys) (cwd file code n ec : String)
    (entries : List (String × Except String String)) :
    (fs (pjoin cwd file) = .file (.error code) →
      ((code = "ENOENT" ∨ code = "EISDIR") → safeReadFile fs file cwd = .ok "") ∧
      (¬(code = "ENOENT" ∨ code = "EISDIR") → safeReadFile fs file cwd = .error code)) ∧
    (fs (pjoin cwd file) = .dir entries → (n, Except.error ec) ∈ entries →
      safeReadFile fs file cwd = .ok "") := by
  constructor
  · intro hfs
    constructor
    · intro h
      simp only [safeReadFile, hfs]
      rw [if_pos h]
    · intro h
      simp only [safeReadFile, hfs]
      rw [if_neg h]
  · intro hfs hm
    simp only [safeReadFile, hfs, readDirEntries_eq_none hm]

/-- C9 witness: a permission error on a top-level `.cursorrules` file
propagates, while the same error inside a `.clinerules` directory is
swallowed. -/
theorem claim_C9_error_policy_witness :
    safeReadFile c9wFS ".cursorrules" "/w" = .error "EACCES" ∧
    safeReadFile c9FS ".clinerules" "/w" = .ok "" :=
  ⟨((claim_C9_error_policy c9wFS "/w" ".cursorrules" "EACCES" "" "" []).1 rfl).2 (by decide),
    (claim_C9_error_policy c9FS "/w" ".clinerules" "" "a.md" "EACCES"
      [("a.md", .error "EACCES")]).2 rfl (by decide)⟩

/-- C10: the ignore-instruction string is only tested for truthiness and
is included untrimmed: a whitespace-only non-empty string still yields a
Rules section and the banner; by contrast a whitespace-only global
instruction, mode instruction, or rule-file content is trimmed away and
yields the empty document. -/
theorem claim_C10_ignore_untrimmed (g m cwd mode s : String) (table : String → Option String)
    (hg : jsTrim g = "") (hm : jsTrim m = "") (hs0 : s ≠ "") (hsw : jsTrim s = "") :
    addCustomInstructions absentFS table m g cwd mode ⟨none, some s⟩ =
      .ok (customInstructionsBanner ++ ("Rules:\n\n" ++ s)) ∧
    addCustomInstructions absentFS table m s cwd mode ⟨none, none⟩ = .ok "" ∧
    addCustomInstructions absentFS table s g cwd mode ⟨none, none⟩ = .ok "" ∧
    addCustomInstructions (c10FS cwd s) table "" "" cwd "" ⟨none, none⟩ = .ok "" := by
  have hmr : (if mode ≠ "" then safeReadFile absentFS (".clinerules-" ++ mode) cwd
      else Except.ok "") = Except.ok "" := by
    split
    · rfl
    · rfl
  have hlr : loadRuleFiles absentFS cwd = .ok "" := rfl
  have hR : ("Rules:\n\n" ++ s) ≠ "" := str_append_left_ne_empty "Rules:\n\n" s (by decide)
  refine ⟨?_, ?_, ?_, ?_⟩
  · unfold addCustomInstructions
    rw [hmr]
    simp [hlr, hg, hm, joinSep, hs0, hR]
  · unfold addCustomInstructions
    rw [hmr]
    simp [hlr, hm, hsw, joinSep]
  · unfold addCustomInstructions
    rw [hmr]
    simp [hlr, hg, hsw, joinSep]
  · unfold addCustomInstructions
    have hlr2 : loadRuleFiles (c10FS cwd s) cwd = .ok "" := by
      have hne1 : ¬ (pjoin cwd ".clinerules" = pjoin cwd ".cursorrules") := by
        rw [pjoin_right_inj]
        decide
      have hne2 : ¬ (pjoin cwd ".windsurfrules" = pjoin cwd ".cursorrules") := by
        rw [pjoin_right_inj]
        decide
      simp [loadRuleFiles, ruleFilesList, loadRuleFilesAux, safeReadFile, c10FS,
        hne1, hne2, hsw]
    simp [hlr2, joinSep]

/-- C10 witness: a single-space ignore string produces the banner and a
Rules section containing the space verbatim. -/
theorem claim_C10_ignore_untrimmed_witness :
    addCustomInstructions absentFS (fun _ => none) "" "" "/p" "code" ⟨none, some " "⟩ =
      .ok (customInstructionsBanner ++ ("Rules:\n\n" ++ " ")) :=
  (claim_C10_ignore_untrimmed "" "" "/p" "code" " " (fun _ => none)
    (by decide) (by decide) (by decide) (by decide)).1

theorem dropWhile_fix_append {l r : List Char}
    (hl : l.dropWhile Char.isWhitespace = l) (hne : l ≠ []) :
    (l ++ r).dropWhile Char.isWhitespace = l ++ r := by
  cases l with
  | nil => exact absurd rfl hne
  | cons a t =>
      have ha := head_not_ws_of_dropWhile_fix hl
      rw [List.cons_append]
      exact dropWhile_eq_self_of_head _ ha

theorem str_ne_empty_data {x : String} (h : x ≠ "") : x.data ≠ [] :=
  fun hd => h (strExt hd)

theorem strAppendAssoc (a b c : String) : (a ++ b) ++ c = a ++ (b ++ c) := by
  apply strExt
  simp [strDataAppend, List.append_assoc]

theorem jsTrim_newline_wrap (x : String) (hne : x ≠ "")
    (h1 : x.data.dropWhile Char.isWhitespace = x.data)
    (h2 : x.data.reverse.dropWhile Char.isWhitespace = x.data.reverse) :
    jsTrim ("\n" ++ x ++ "\n") = x := by
  apply strExt
  show (((("\n" ++ x ++ "\n").data.dropWhile Char.isWhitespace).reverse).dropWhile
      Char.isWhitespace).reverse = x.data
  have hd : ("\n" ++ x ++ "\n").data = '\n' :: (x.data ++ ['\n']) := by
    simp [strDataAppend]
  rw [hd]
  have e1 : ('\n' :: (x.data ++ ['\n'])).dropWhile Char.isWhitespace =
      (x.data ++ ['\n']).dropWhile Char.isWhitespace := by
    simp [List.dropWhile_cons]
  rw [e1, dropWhile_fix_append h1 (str_ne_empty_data hne), List.reverse_append]
  have e2 : (['\n'].reverse ++ x.data.reverse) = '\n' :: x.data.reverse := by simp
  rw [e2]
  have e3 : ('\n' :: x.data.reverse).dropWhile Char.isWhitespace =
      x.data.reverse.dropWhile Char.isWhitespace := by
    simp [List.dropWhile_cons]
  rw [e3, h2, List.reverse_reverse]

set_option maxHeartbeats 1600000 in
/-- C7: when a language option, global instructions, mode instructions, a
mode rule file, an ignore-instruction string, and a generic rule file are
all present and non-empty, the document lists them in the fixed order
language preference, global, mode-specific, then a single Rules block
holding the labeled mode rule content, the ignore string, and the generic
aggregate, each joined by a blank line. -/
theorem claim_C7_section_order (table : String → Option String)
    (g m cwd mode lang s cm cg : String)
    (hmode : mode ≠ "") (hgne : jsTrim g ≠ "") (hmne : jsTrim m ≠ "")
    (hcm : jsTrim cm = cm) (hcm0 : cm ≠ "") (hs : s ≠ "")
    (hcg : jsTrim cg = cg) (hcg0 : cg ≠ "") :
    addCustomInstructions (c7FS cwd mode cm cg) table m g cwd mode ⟨some lang, some s⟩ =
      .ok (customInstructionsBanner ++
        "Language Preference:\nYou should always speak and think in the \"" ++
        resolveLanguageName table lang ++ "\" (" ++ lang ++
        ") language unless the user gives you instructions below to do otherwise." ++ "\n\n" ++
        "Global Instructions:\n" ++ jsTrim g ++ "\n\n" ++
        "Mode-specific Instructions:\n" ++ jsTrim m ++ "\n\n" ++
        "Rules:\n\n" ++
        "# Rules from .clinerules-" ++ mode ++ ":\n" ++
        ruleFileHeader (".clinerules-" ++ mode) cwd ++ cm ++ "\n\n" ++
        s ++ "\n\n" ++
        ruleFileHeader ".cursorrules" cwd ++ cg) := by
  have hmr : safeReadFile (c7FS cwd mode cm cg) (".clinerules-" ++ mode) cwd =
      .ok (ruleFileHeader (".clinerules-" ++ mode) cwd ++ cm) := by
    have hscrut : c7FS cwd mode cm cg (pjoin cwd (".clinerules-" ++ mode)) = .file (.ok cm) := by
      simp [c7FS]
    simp only [safeReadFile, hscrut]
    rw [hcm, if_pos hcm0]
  have hclr : safeReadFile (c7FS cwd mode cm cg) ".clinerules" cwd = .ok "" := by
    have h1 : ¬ (pjoin cwd ".clinerules" = pjoin cwd (".clinerules-" ++ mode)) := by
      rw [pjoin_right_inj]
      exact clinerules_ne_modefile mode
    have h2 : ¬ (pjoin cwd ".clinerules" = pjoin cwd ".cursorrules") := by
      rw [pjoin_right_inj]
      decide
    simp [safeReadFile, c7FS, h1, h2]
  have hcur : safeReadFile (c7FS cwd mode cm cg) ".cursorrules" cwd =
      .ok (ruleFileHeader ".cursorrules" cwd ++ cg) := by
    have h1 : ¬ (pjoin cwd ".cursorrules" = pjoin cwd (".clinerules-" ++ mode)) := by
      rw [pjoin_right_inj]
      exact cursorrules_ne_modefile mode
    have hscrut : c7FS cwd mode cm cg (pjoin cwd ".cursorrules") = .file (.ok cg) := by
      simp [c7FS, h1]
    simp only [safeReadFile, hscrut]
    rw [hcg, if_pos hcg0]
  have hwin : safeReadFile (c7FS cwd mode cm cg) ".windsurfrules" cwd = .ok "" := by
    have h1 : ¬ (pjoin cwd ".windsurfrules" = pjoin cwd (".clinerules-" ++ mode)) := by
      rw [pjoin_right_inj]
      exact windsurfrules_ne_modefile mode
    have h2 : ¬ (pjoin cwd ".windsurfrules" = pjoin cwd ".cursorrules") := by
      rw [pjoin_right_inj]
      decide
    simp [safeReadFile, c7FS, h1, h2]
  have hlr : loadRuleFiles (c7FS cwd mode cm cg) cwd =
      .ok ("\n" ++ (ruleFileHeader ".cursorrules" cwd ++ cg) ++ "\n") := by
    simp only [loadRuleFiles, ruleFilesList, loadRuleFilesAux, hclr, hcur, hwin]
    have hE : ¬ (("" : String) ≠ "") := fun h => h rfl
    rw [if_neg hE, if_pos (ruleFileHeader_append_ne_empty ".cursorrules" cwd cg), if_neg hE]
    rfl
  obtain ⟨hcm1, hcm2⟩ := jsTrim_fix_dropWhile hcm
  obtain ⟨hcg1, hcg2⟩ := jsTrim_fix_dropWhile hcg
  have hX1 : (ruleFileHeader ".cursorrules" cwd ++ cg).data.dropWhile Char.isWhitespace =
      (ruleFileHeader ".cursorrules" cwd ++ cg).data := by
    simp [ruleFileHeader, strDataAppend, List.dropWhile_cons]
  have hX2 : (ruleFileHeader ".cursorrules" cwd ++ cg).data.reverse.dropWhile Char.isWhitespace =
      (ruleFileHeader ".cursorrules" cwd ++ cg).data.reverse := by
    rw [strDataAppend, List.reverse_append]
    exact dropWhile_fix_append hcg2 (by simpa using str_ne_empty_data hcg0)
  have hwrap : jsTrim ("\n" ++ (ruleFileHeader ".cursorrules" cwd ++ cg) ++ "\n") =
      ruleFileHeader ".cursorrules" cwd ++ cg :=
    jsTrim_newline_wrap _ (ruleFileHeader_append_ne_empty _ _ _) hX1 hX2
  have hM1 : (ruleFileHeader (".clinerules-" ++ mode) cwd ++ cm).data.dropWhile Char.isWhitespace =
      (ruleFileHeader (".clinerules-" ++ mode) cwd ++ cm).data := by
    simp [ruleFileHeader, strDataAppend, List.dropWhile_cons]
  have hM2 : (ruleFileHeader (".clinerules-" ++ mode) cwd ++ cm).data.reverse.dropWhile
      Char.isWhitespace = (ruleFileHeader (".clinerules-" ++ mode) cwd ++ cm).data.reverse := by
    rw [strDataAppend, List.reverse_append]
    exact dropWhile_fix_append hcm2 (by simpa using str_ne_empty_data hcm0)
  have hMfix : jsTrim (ruleFileHeader (".clinerules-" ++ mode) cwd ++ cm) =
      ruleFileHeader (".clinerules-" ++ mode) cwd ++ cm := jsTrim_eq_self hM1 hM2
  have hMne : ruleFileHeader (".clinerules-" ++ mode) cwd ++ cm ≠ "" :=
    ruleFileHeader_append_ne_empty _ _ _
  have hMtne : jsTrim (ruleFileHeader (".clinerules-" ++ mode) cwd ++ cm) ≠ "" := by
    rw [hMfix]
    exact hMne
  have hGne : ("\n" ++ (ruleFileHeader ".cursorrules" cwd ++ cg) ++ "\n") ≠ "" :=
    str_append_left_ne_empty _ _ (str_append_left_ne_empty _ _ (by decide))
  have hGtne : jsTrim ("\n" ++ (ruleFileHeader ".cursorrules" cwd ++ cg) ++ "\n") ≠ "" := by
    rw [hwrap]
    exact ruleFileHeader_append_ne_empty _ _ _
  unfold addCustomInstructions
  rw [if_pos hmode, hmr]
  simp only [hlr, hgne, hmne, hMne, hMtne, hs, hGne, hGtne, hwrap, joinSep,
    ne_eq, not_false_iff, if_true, and_self, List.cons_ne_self]
  have hJ : ("Language Preference:\nYou should always speak and think in the \"" ++
      resolveLanguageName table lang ++ "\" (" ++ lang ++
      ") language unless the user gives you instructions below to do otherwise." ++ "\n\n" ++
      ("Global Instructions:\n" ++ jsTrim g ++ "\n\n" ++
        ("Mode-specific Instructions:\n" ++ jsTrim m ++ "\n\n" ++
          ("Rules:\n\n" ++
            ("# Rules from .clinerules-" ++ mode ++ ":\n" ++
              (ruleFileHeader (".clinerules-" ++ mode) cwd ++ cm) ++ "\n\n" ++
              (s ++ "\n\n" ++ (ruleFileHeader ".cursorrules" cwd ++ cg))))))) ≠ "" := by
    apply str_append_left_ne_empty
    apply str_append_left_ne_empty
    apply str_append_left_ne_empty
    apply str_append_left_ne_empty
    apply str_append_left_ne_empty
    apply str_append_left_ne_empty
    decide
  rw [if_pos hJ]
  simp only [strAppendAssoc]

/-- C7 witness: a fully concrete instantiation showing the assembled
document in order. -/
theorem claim_C7_section_order_witness :
    addCustomInstructions (c7FS "/p" "code" "CM" "CG") (fun _ => none) "M" "G" "/p" "code"
        ⟨some "fr", some "IG"⟩ =
      .ok (customInstructionsBanner ++
        "Language Preference:\nYou should always speak and think in the \"" ++
        resolveLanguageName (fun _ => none) "fr" ++ "\" (" ++ "fr" ++
        ") language unless the user gives you instructions below to do otherwise." ++ "\n\n" ++
        "Global Instructions:\n" ++ jsTrim "G" ++ "\n\n" ++
        "Mode-specific Instructions:\n" ++ jsTrim "M" ++ "\n\n" ++
        "Rules:\n\n" ++
        "# Rules from .clinerules-" ++ "code" ++ ":\n" ++
        ruleFileHeader (".clinerules-" ++ "code") "/p" ++ "CM" ++ "\n\n" ++
        "IG" ++ "\n\n" ++
        ruleFileHeader ".cursorrules" "/p" ++ "CG") :=
  claim_C7_section_order (fun _ => none) "G" "M" "/p" "code" "fr" "IG" "CM" "CG"
    (by decide) (by decide) (by decide) (by decide) (by decide) (by decide)
    (by decide) (by decide)
